import Mathlib

/-!
Verification of the envoy wasm-vm memory-consumption benchmark (`run.py`).

We give a shallow embedding of the pure measurement/aggregation pipeline:
the process locator `grep_envoy_pid`, the report writer `write_report`,
the report parser `parse_report` (with models of the two regular
expressions it uses), the delta aggregation `calculate_delta`, and the
summary formatter `analyze_report_data` / `fill_a_line`, plus a model of
the control flow of the orchestrator `start_envoy_and_collect_vm_info`.

Python exceptions are modelled with `Except`; Python ints are `Nat`/`Int`;
the float average produced by `calculate_delta` is modelled as `ℚ`.
`os.linesep` is fixed to a single newline (the tool targets Linux).
-/

/-- The Python exception classes that can arise in `run.py`. -/
inductive PyExc
  | assertionError
  | attributeError
  | indexError
  | keyError
  | zeroDivisionError
  | fileNotFoundError
deriving DecidableEq, Repr

/-- A parsed measurement round: the Python dict built by `parse_report`.
Keys absent from the dict are `none`. -/
structure Round where
  vm_name : Option String
  vm_insts : Option String
  VmSize : Option Nat
  VmRSS : Option Nat
  RssAnon : Option Nat
  RssFile : Option Nat
  RssShmem : Option Nat
  Threads : Option Nat
deriving DecidableEq, Repr

/-- The empty dict `round = {}`. -/
def emptyRound : Round := ⟨none, none, none, none, none, none, none, none⟩

/-! ## Process locator: `grep_envoy_pid` (run.py lines 36-49)

The Python code splits the `ps aux` output into lines, splits each line on
single spaces, drops empty tokens, skips empty rows, and indexes token 10
(the command) and token 1 (the PID).  Indexing a row with at most 10 tokens
raises `IndexError`. -/

/-- Result of the locator: the sentinel `0` or a PID string. -/
inductive GrepResult
  | notFound
  | found (pid : String)
deriving DecidableEq, Repr

/-- Python `str.split(sep)` with a one-character separator, on character
lists; splits at every occurrence of the separator and keeps empty
pieces, so that `"".split(" ") = [""]` and `"a  b".split(" ") =
["a", "", "b"]` as in Python. -/
def splitOnCharAux (sep : Char) : List Char → List Char → List (List Char)
  | [], cur => [cur.reverse]
  | c :: rest, cur =>
    if c = sep then
      cur.reverse :: splitOnCharAux sep rest []
    else
      splitOnCharAux sep rest (c :: cur)

def splitOnChar (sep : Char) (l : List Char) : List (List Char) :=
  splitOnCharAux sep l []

/-- `[t for t in proc_info.split(" ") if t]`. -/
def psTokens (line : List Char) : List (List Char) :=
  (splitOnChar ' ' line).filter (fun t => t ≠ [])

/-- The `for proc_info in p.stdout.split("\n")` loop of `grep_envoy_pid`. -/
def grepLines (envoy_path : List Char) : List (List Char) → Except PyExc GrepResult
  | [] => .ok .notFound
  | line :: rest =>
    let info_wo_empty := psTokens line
    if info_wo_empty.length = 0 then
      grepLines envoy_path rest
    else if h : 10 < info_wo_empty.length then
      if envoy_path.isPrefixOf (info_wo_empty.get ⟨10, h⟩) then
        .ok (.found (String.mk (info_wo_empty.get ⟨1, by omega⟩)))
      else
        grepLines envoy_path rest
    else
      .error .indexError

/-- `grep_envoy_pid(envoy_path)`, with the text captured from `ps aux`
made an explicit argument. -/
def grep_envoy_pid (envoy_path stdout : String) : Except PyExc GrepResult :=
  grepLines envoy_path.data (splitOnChar '\n' stdout.data)

/-- The per-row condition under which the locator scans past a row:
the row is empty after tokenisation, or it has at least 11 tokens and
its command token (index 10) does not start with the path. -/
def rowSkippable (envoy_path : List Char) (line : List Char) : Prop :=
  psTokens line = [] ∨
    (10 < (psTokens line).length ∧
      ¬ envoy_path.isPrefixOf ((psTokens line).getD 10 []))

instance (p l : List Char) : Decidable (rowSkippable p l) := by
  unfold rowSkippable; infer_instance

theorem grepLines_not_found (envoy_path : List Char) (ls : List (List Char))
    (h : ∀ l ∈ ls, rowSkippable envoy_path l) :
    grepLines envoy_path ls = .ok .notFound := by
  induction ls with
  | nil => rfl
  | cons line rest ih =>
    have hl := h line (List.mem_cons_self _ _)
    have hrest : ∀ l ∈ rest, rowSkippable envoy_path l :=
      fun l hm => h l (List.mem_cons_of_mem _ hm)
    rcases hl with hempty | ⟨hlen, hns⟩
    · rw [grepLines]
      simp [hempty, ih hrest]
    · rw [grepLines]
      have hne : ¬ ((psTokens line).length = 0) := by omega
      rw [if_neg hne, dif_pos hlen]
      rw [List.getD_eq_getElem _ _ hlen] at hns
      rw [if_neg (by simpa using hns)]
      exact ih hrest

/-! ## Delta aggregation: `calculate_delta` (run.py lines 105-116) -/

/-- The body of the `for i, v in enumerate(data)` loop after the first
iteration: `prev` holds the previous value and each step appends
`v - prev`. -/
def deltaLoop : Int → List Int → List Int
  | _, [] => []
  | prev, v :: rest => (v - prev) :: deltaLoop v rest

/-- `calculate_delta(data)`: returns the successive differences and the
float `sum(deltas)/len(deltas)`; raises `ZeroDivisionError` when there
are no deltas. -/
def calculate_delta (data : List Int) : Except PyExc (List Int × ℚ) :=
  let deltas : List Int :=
    match data with
    | [] => []
    | v :: rest => deltaLoop v rest
  if deltas.length = 0 then
    .error .zeroDivisionError
  else
    .ok (deltas, (deltas.sum : ℚ) / (deltas.length : ℚ))

theorem deltaLoop_eq_zipWith (p : Int) (l : List Int) :
    deltaLoop p l = List.zipWith (fun a b => b - a) (p :: l) l := by
  induction l generalizing p with
  | nil => rfl
  | cons v rest ih => simp [deltaLoop, ih]

/-- C2 (counterexample): a process listing whose single row has fewer than
11 whitespace-separated tokens makes `grep_envoy_pid` raise `IndexError`
(from `info_wo_empty[10]`) instead of returning the sentinel 0, even
though no row's command field starts with the path. -/
theorem grep_envoy_pid_short_row_raises :
    grep_envoy_pid "exe_2_v8/envoy-static" "x" = .error .indexError := by
  rfl

/-- C2 (amended): provided every row of the process listing is either
empty after tokenisation or has at least 11 whitespace-separated tokens,
and no row's command field (11th token) starts with the given path,
`grep_envoy_pid` returns the sentinel not-found value without raising. -/
theorem grep_envoy_pid_not_found (envoy_path stdout : String)
    (h : ∀ l ∈ splitOnChar '\n' stdout.data, rowSkippable envoy_path.data l) :
    grep_envoy_pid envoy_path stdout = .ok .notFound :=
  grepLines_not_found envoy_path.data _ h

theorem grep_envoy_pid_not_found_witness :
    (∀ l ∈ splitOnChar '\n' ("USER PID C MEM VSZ RSS TTY STAT START TIME CMD\nroot 1 0 0 9 5 tty Ss 0 0 /sbin/init\n" : String).data,
        rowSkippable ("exe_2_v8/envoy-static" : String).data l) ∧
    grep_envoy_pid "exe_2_v8/envoy-static"
        "USER PID C MEM VSZ RSS TTY STAT START TIME CMD\nroot 1 0 0 9 5 tty Ss 0 0 /sbin/init\n"
      = .ok .notFound :=
  ⟨by decide, grep_envoy_pid_not_found _ _ (by decide)⟩

/-- C5: for every value sequence of length at least 2, `calculate_delta`
returns the successive differences between consecutive values together
with their arithmetic mean as the final component. -/
theorem calculate_delta_spec (data : List Int) (h : 2 ≤ data.length) :
    calculate_delta data =
      .ok (List.zipWith (fun a b => b - a) data data.tail,
        (((List.zipWith (fun a b => b - a) data data.tail).sum : Int) : ℚ) /
          ((data.length - 1 : Nat) : ℚ)) := by
  match data, h with
  | v :: w :: rest, _ =>
    have hz := deltaLoop_eq_zipWith v (w :: rest)
    have hlen : (List.zipWith (fun a b : Int => b - a) (v :: w :: rest) (w :: rest)).length
        = rest.length + 1 := by
      simp [List.length_zipWith]
    rw [calculate_delta]
    simp only [hz, List.tail_cons]
    rw [if_neg (by omega)]
    rw [hlen]
    norm_num

/-- C5 witness: for the input [10, 15, 13] the deltas are [5, -2] and the
average is 1.5. -/
theorem calculate_delta_spec_witness :
    2 ≤ ([10, 15, 13] : List Int).length ∧
    calculate_delta [10, 15, 13] = .ok ([5, -2], (3 : ℚ) / 2) := by
  refine ⟨by decide, ?_⟩
  rw [calculate_delta_spec [10, 15, 13] (by decide)]
  norm_num

/-- C7: `calculate_delta` raises `ZeroDivisionError` (the mean is taken
over an empty sequence of deltas) exactly when its input has fewer than
2 values, i.e. when a configuration has fewer than 2 rounds. -/
theorem calculate_delta_zero_division_iff (data : List Int) :
    calculate_delta data = .error .zeroDivisionError ↔ data.length < 2 := by
  match data with
  | [] => simp [calculate_delta]
  | [v] => simp [calculate_delta, deltaLoop]
  | v :: w :: rest =>
    have hz := deltaLoop_eq_zipWith v (w :: rest)
    have hlen : (List.zipWith (fun a b : Int => b - a) (v :: w :: rest) (w :: rest)).length
        = rest.length + 1 := by
      simp [List.length_zipWith]
    rw [calculate_delta]
    simp only [hz, hlen]
    rw [if_neg (by omega)]
    simp

/-! ## Summary formatting: `fill_a_line` / `analyze_report_data`
(run.py lines 160-196)

`fill_a_line` looks the metric up in each round dict (a missing key is a
Python `KeyError`), feeds the value list to `calculate_delta`, and joins
everything with pipes.  The average is a Python float; we model its
`str()` rendering for values with an exact finite decimal expansion. -/

/-- Dict lookup `r[key]` for the metric keys that can occur in a round. -/
def getKey (r : Round) (key : String) : Except PyExc Nat :=
  let v :=
    if key = "VmSize" then r.VmSize
    else if key = "VmRSS" then r.VmRSS
    else if key = "RssAnon" then r.RssAnon
    else if key = "RssFile" then r.RssFile
    else if key = "RssShmem" then r.RssShmem
    else if key = "Threads" then r.Threads
    else none
  match v with
  | some n => .ok n
  | none => .error .keyError

/-- Decimal digits of the fractional part `r / d`, most significant
first, stopping when the remainder is 0 (fuel-bounded). -/
def fracDigits : Nat → Nat → Nat → List Char
  | 0, _, _ => []
  | _ + 1, 0, _ => []
  | fuel + 1, r, d =>
    Char.ofNat (48 + (r * 10) / d) :: fracDigits fuel ((r * 10) % d) d

/-- Python `str()` of the float `sum/len` computed by `calculate_delta`,
modelled exactly for rationals with a short finite decimal expansion
(all values reached in this development); always renders at least one
fractional digit, as Python does for floats (`str(40.0) = "40.0"`). -/
def pyFloatStr (q : ℚ) : String :=
  let sign := if q < 0 then "-" else ""
  let n := q.num.natAbs
  let d := q.den
  let frac := if n % d = 0 then "0" else String.mk (fracDigits 17 (n % d) d)
  sign ++ toString (n / d) ++ "." ++ frac

/-- `fill_a_line(data, vm, key)` (run.py lines 161-171): one pipe-joined
table row followed by `os.linesep`. -/
def fill_a_line (data : List Round) (vm key : String) : Except PyExc String := do
  let key_data ← data.mapM (fun r => getKey r key)
  let kd ← calculate_delta (key_data.map (fun n => (n : Int)))
  return "|" ++ vm ++ "|" ++ key ++ "|"
      ++ String.intercalate "|" (key_data.map (fun n => toString n))
      ++ "|"
      ++ String.intercalate "|" (kd.1.map (fun z => toString z) ++ [pyFloatStr kd.2])
      ++ "|" ++ "\n"

/-- C6: for three rounds of configuration "x" whose VmRSS values are
[100, 140, 175], the formatter emits exactly the row
`|x|VmRSS|100|140|175|40|35|37.5|` followed by a line separator. -/
theorem fill_a_line_vmrss_row :
    fill_a_line
      [{ emptyRound with vm_name := some "x", vm_insts := some "1", VmRSS := some 100 },
       { emptyRound with vm_name := some "x", vm_insts := some "2", VmRSS := some 140 },
       { emptyRound with vm_name := some "x", vm_insts := some "3", VmRSS := some 175 }]
      "x" "VmRSS"
      = .ok "|x|VmRSS|100|140|175|40|35|37.5|\n" := by
  with_unfolding_all rfl

/-- The fixed configuration-label list iterated by
`analyze_report_data`. -/
def vmConfigs : List String :=
  ["v8", "wasmtime", "wamr-5-18-22", "wamr-1-1-0", "wamr-1-1-0-dis",
   "wamr-fbac", "wamr-fbac-dis", "wamr-clone", "wamr-clone-dis"]

/-- `[r for r in report_data if r["vm_name"] == key]`; looking up
`vm_name` on a round that lacks it is a `KeyError`. -/
def filterByName : List Round → String → Except PyExc (List Round)
  | [], _ => .ok []
  | r :: rest, key =>
    match r.vm_name with
    | none => .error .keyError
    | some n => do
      let tail ← filterByName rest key
      if n = key then
        return r :: tail
      else
        return tail

/-- The five `fill_a_line` calls the `for key in [...]` loop body makes
for one configuration label (run.py lines 189-194); note `RssShmem` is
not among them. -/
def configRows (report_data : List Round) (key : String) : Except PyExc String := do
  let rounds ← filterByName report_data key
  let a ← fill_a_line rounds key "VmSize"
  let b ← fill_a_line rounds key "VmRSS"
  let c ← fill_a_line rounds key "RssAnon"
  let d ← fill_a_line rounds key "RssFile"
  let e ← fill_a_line rounds key "Threads"
  return a ++ b ++ c ++ d ++ e

/-- The fixed heading and table header emitted before the rows. -/
def tableHeader : String :=
  "# Summary " ++ "\n\n" ++ "Collect from */proc/[pid]/status*" ++ "\n\n"
    ++ "| wasm vm | vm inst amount |1 vm | 2 vms | 3 vms | delta_1 | delta_2 | delta_avg |"
    ++ "\n"
    ++ "| -- | -- | -- | -- | -- | -- | -- | -- |" ++ "\n"

/-- The `for key in [...]` loop of `analyze_report_data`: accumulates
`result += fill_a_line(...)` for each configuration label in turn. -/
def analyzeRows (report_data : List Round) : List String → Except PyExc String
  | [] => .ok ""
  | key :: rest => do
    let row ← configRows report_data key
    let tailRows ← analyzeRows report_data rest
    return row ++ tailRows

/-- `analyze_report_data(report_data)` (run.py lines 160-196). -/
def analyze_report_data (report_data : List Round) : Except PyExc String := do
  let rows ← analyzeRows report_data vmConfigs
  return tableHeader ++ rows

theorem except_bind_ok {α β : Type} {x : Except PyExc α} {f : α → Except PyExc β} {b : β}
    (h : (x >>= f) = .ok b) : ∃ a, x = .ok a ∧ f a = .ok b := by
  cases x with
  | error e => simp [Bind.bind, Except.bind] at h
  | ok a => exact ⟨a, rfl, by simpa [Bind.bind, Except.bind] using h⟩

theorem infix_append_left {α : Type} {x m l : List α} (h : x <:+: m) : x <:+: m ++ l :=
  h.trans (List.prefix_append m l).isInfix

theorem infix_append_right {α : Type} {x m l : List α} (h : x <:+: m) : x <:+: l ++ m :=
  h.trans (List.suffix_append l m).isInfix

/-- Every successful `fill_a_line` row begins with `|vm|key|`. -/
theorem fill_a_line_ok_shape (data : List Round) (vm key s : String)
    (h : fill_a_line data vm key = .ok s) :
    ("|" ++ vm ++ "|" ++ key ++ "|").data <+: s.data := by
  unfold fill_a_line at h
  obtain ⟨key_data, -, h⟩ := except_bind_ok h
  obtain ⟨kd, -, h⟩ := except_bind_ok h
  simp only [pure, Except.pure, Except.ok.injEq] at h
  refine ⟨("|".intercalate (List.map (fun n => toString n) key_data) ++ "|" ++
      "|".intercalate (List.map (fun z => toString z) kd.1 ++ [pyFloatStr kd.2]) ++
      "|" ++ "\n").data, ?_⟩
  rw [← h]
  simp [String.data_append, List.append_assoc]

/-- In a successful `configRows` block there is a row for each of the
five metrics the loop body emits. -/
theorem configRows_ok_shape (rd : List Round) (key s : String)
    (h : configRows rd key = .ok s) (metric : String)
    (hm : metric ∈ ["VmSize", "VmRSS", "RssAnon", "RssFile", "Threads"]) :
    ("|" ++ key ++ "|" ++ metric ++ "|").data <:+: s.data := by
  unfold configRows at h
  obtain ⟨rounds, -, h⟩ := except_bind_ok h
  obtain ⟨a, ha, h⟩ := except_bind_ok h
  obtain ⟨b, hb, h⟩ := except_bind_ok h
  obtain ⟨c, hc, h⟩ := except_bind_ok h
  obtain ⟨d, hd, h⟩ := except_bind_ok h
  obtain ⟨e, he, h⟩ := except_bind_ok h
  simp only [pure, Except.pure, Except.ok.injEq] at h
  have hs : s.data = a.data ++ (b.data ++ (c.data ++ (d.data ++ e.data))) := by
    rw [← h]
    simp [String.data_append, List.append_assoc]
  rw [hs]
  have hrow : ∀ t m : String, fill_a_line rounds key m = .ok t →
      ("|" ++ key ++ "|" ++ m ++ "|").data <:+: t.data :=
    fun t m hok => (fill_a_line_ok_shape rounds key m t hok).isInfix
  simp only [List.mem_cons, List.not_mem_nil, or_false] at hm
  rcases hm with hm | hm | hm | hm | hm
  · subst hm; exact infix_append_left (hrow a _ ha)
  · subst hm; exact infix_append_right (infix_append_left (hrow b _ hb))
  · subst hm
    exact infix_append_right (infix_append_right (infix_append_left (hrow c _ hc)))
  · subst hm
    exact infix_append_right (infix_append_right (infix_append_right
      (infix_append_left (hrow d _ hd))))
  · subst hm
    exact infix_append_right (infix_append_right (infix_append_right
      (infix_append_right (hrow e _ he))))

theorem analyzeRows_ok_shape (rd : List Round) (keys : List String) (s key : String)
    (h : analyzeRows rd keys = .ok s) (hk : key ∈ keys) (metric : String)
    (hm : metric ∈ ["VmSize", "VmRSS", "RssAnon", "RssFile", "Threads"]) :
    ("|" ++ key ++ "|" ++ metric ++ "|").data <:+: s.data := by
  induction keys generalizing s with
  | nil => cases hk
  | cons k rest ih =>
    rw [analyzeRows] at h
    obtain ⟨row, hrow, h⟩ := except_bind_ok h
    obtain ⟨tailRows, htail, h⟩ := except_bind_ok h
    simp only [pure, Except.pure, Except.ok.injEq] at h
    have hs : s.data = row.data ++ tailRows.data := by
      rw [← h]; simp [String.data_append]
    rw [hs]
    rcases List.mem_cons.mp hk with hk1 | hk2
    · subst hk1
      exact infix_append_left (configRows_ok_shape rd key row hrow metric hm)
    · exact infix_append_right (ih tailRows htail hk2)

/-- C3 (amended): whenever `analyze_report_data` succeeds, its summary
contains one table row per (configuration label, metric) pair for every
metric in {VmSize, VmRSS, RssAnon, RssFile, Threads}; `RssShmem`,
although parsed, is never reported. -/
theorem analyze_report_data_has_row (rd : List Round) (out key metric : String)
    (hout : analyze_report_data rd = .ok out)
    (hkey : key ∈ vmConfigs)
    (hm : metric ∈ ["VmSize", "VmRSS", "RssAnon", "RssFile", "Threads"]) :
    ("|" ++ key ++ "|" ++ metric ++ "|").data <:+: out.data := by
  unfold analyze_report_data at hout
  obtain ⟨rows, hrows, hout⟩ := except_bind_ok hout
  simp only [pure, Except.pure, Except.ok.injEq] at hout
  have : out.data = tableHeader.data ++ rows.data := by
    rw [← hout]; simp [String.data_append]
  rw [this]
  exact infix_append_right (analyzeRows_ok_shape rd vmConfigs rows key hrows hkey metric hm)

/-- A fully populated round (all six metrics present) for the
counterexample report data. -/
def mkRoundX (name insts : String) (v : Nat) : Round :=
  ⟨some name, some insts, some v, some v, some v, some v, some v, some v⟩

/-- Report data with two complete rounds for every configured label. -/
def rdX : List Round :=
  (vmConfigs.map (fun k => [mkRoundX k "1" 1, mkRoundX k "2" 2])).flatten

/-- Boolean check that `pat` occurs as a contiguous run inside `s`. -/
def containsSeq (pat : List Char) : List Char → Bool
  | [] => pat.isPrefixOf []
  | c :: t => pat.isPrefixOf (c :: t) || containsSeq pat t

theorem containsSeq_correct (pat s : List Char) :
    containsSeq pat s = true ↔ pat <:+: s := by
  induction s with
  | nil =>
    simp [containsSeq, List.isPrefixOf_iff_prefix]
  | cons c t ih =>
    rw [containsSeq, List.infix_cons_iff]
    simp [List.isPrefixOf_iff_prefix, ih, or_comm]

set_option maxRecDepth 8000 in
/-- C3 (counterexample): on report data in which every round carries the
complete declared metric mapping (including `RssShmem`), the summary
produced by `analyze_report_data` contains no row for the
(v8, RssShmem) pair: the declared metric set promises 6 rows per
configuration, the code emits only 5. -/
theorem analyze_report_data_no_rssshmem_row :
    (analyze_report_data rdX).isOk = true ∧
    ¬ (("|v8|RssShmem|" : String).data <:+:
        ((analyze_report_data rdX).toOption.getD "").data) := by
  constructor
  · with_unfolding_all rfl
  · intro hinf
    have hb : containsSeq ("|v8|RssShmem|" : String).data
        ((analyze_report_data rdX).toOption.getD "").data = true :=
      (containsSeq_correct _ _).mpr hinf
    have hfalse : containsSeq ("|v8|RssShmem|" : String).data
        ((analyze_report_data rdX).toOption.getD "").data = false := by
      with_unfolding_all rfl
    rw [hfalse] at hb
    cases hb

set_option maxRecDepth 8000 in
theorem analyze_report_data_has_row_witness :
    ("|" ++ "v8" ++ "|" ++ "VmSize" ++ "|").data <:+:
      ((analyze_report_data rdX).toOption.getD "").data :=
  analyze_report_data_has_row rdX _ "v8" "VmSize"
    (by with_unfolding_all rfl) (by decide) (by decide)

/-! ## Report writing and parsing: `write_report` (run.py lines 66-78),
`parse_vmdata` / `parse_threads` (118-126) and `parse_report` (128-158)

The two regular expressions `f"{key}:\s+(\d+)\s+kB"` and
`"## (\S+)_(\d+)_vm"` are modelled on character lists.  `\s` and `\d`
are the ASCII Python classes; greedy groups with backtracking are
modelled by trying the longest candidate first.  File iteration
(`for line in f`) yields lines that keep their trailing newline. -/

/-- Python's `\s` class (ASCII): space, tab, newline, carriage return,
vertical tab, form feed. -/
def isPySpace (c : Char) : Bool :=
  c = ' ' || c = '\t' || c = '\n' || c = '\r' || c = '\x0b' || c = '\x0c'

/-- `int()` on a non-empty digit string. -/
def natOfDigits (l : List Char) : Nat :=
  l.foldl (fun n c => 10 * n + (c.toNat - 48)) 0

/-- Model of `re.match(f"{key}:\s+(\d+)\s+kB", line)`, returning the
captured integer.  Since `\s`, `\d` and the literals are disjoint
character classes, maximal-run matching is exact here. -/
def vmdataMatch (key l : List Char) : Option Nat :=
  if (key ++ [':']).isPrefixOf l then
    let r1 := l.drop (key.length + 1)
    let sp1 := r1.takeWhile isPySpace
    if sp1.length = 0 then none
    else
      let r2 := r1.drop sp1.length
      let ds := r2.takeWhile Char.isDigit
      if ds.length = 0 then none
      else
        let r3 := r2.drop ds.length
        let sp2 := r3.takeWhile isPySpace
        if sp2.length = 0 then none
        else if ['k', 'B'].isPrefixOf (r3.drop sp2.length) then
          some (natOfDigits ds)
        else none
  else none

/-- Model of `re.match(f"{key}:\s+(\d+)", line)`. -/
def threadsMatch (key l : List Char) : Option Nat :=
  if (key ++ [':']).isPrefixOf l then
    let r1 := l.drop (key.length + 1)
    let sp1 := r1.takeWhile isPySpace
    if sp1.length = 0 then none
    else
      let ds := (r1.drop sp1.length).takeWhile Char.isDigit
      if ds.length = 0 then none
      else some (natOfDigits ds)
  else none

/-- `parse_vmdata(line, key)`: the failed match asserts. -/
def parse_vmdata (l : List Char) (key : String) : Except PyExc Nat :=
  match vmdataMatch key.data l with
  | none => .error .assertionError
  | some v => .ok v

/-- `parse_threads(line, key)`: the failed match asserts. -/
def parse_threads (l : List Char) (key : String) : Except PyExc Nat :=
  match threadsMatch key.data l with
  | none => .error .assertionError
  | some v => .ok v

def digitRun (l : List Char) : Nat := (l.takeWhile Char.isDigit).length

/-- Greedy-with-backtracking match of `(\d+)_vm` at the start of `l`:
digit-group lengths are tried longest first, as the regex engine does. -/
def tryDigits : Nat → List Char → Option (List Char)
  | 0, _ => none
  | k + 1, l =>
    if ['_', 'v', 'm'].isPrefixOf (l.drop (k + 1)) then
      some (l.take (k + 1))
    else
      tryDigits k l

/-- Match of `_(\d+)_vm` at the start of `l`. -/
def matchNumVm (l : List Char) : Option (List Char) :=
  match l with
  | [] => none
  | c :: rest => if c = '_' then tryDigits (digitRun rest) rest else none

def nonspaceRun (l : List Char) : Nat :=
  (l.takeWhile (fun c => !isPySpace c)).length

/-- Greedy-with-backtracking match of `(\S+)_(\d+)_vm`: name lengths are
tried longest first.  Returns (captured name, captured digits). -/
def tryName : Nat → List Char → Option (String × String)
  | 0, _ => none
  | k + 1, l =>
    match matchNumVm (l.drop (k + 1)) with
    | some ds => some (String.mk (l.take (k + 1)), String.mk ds)
    | none => tryName k l

/-- Model of `re.match("## (\S+)_(\d+)_vm", line)`. -/
def headerLineMatch (l : List Char) : Option (String × String) :=
  if ['#', '#', ' '].isPrefixOf l then
    tryName (nonspaceRun (l.drop 3)) (l.drop 3)
  else none

/-- The metric `if/elif` chain in the `else` branch of the parse loop
(run.py lines 143-156). -/
def metricStep (round : Round) (l : List Char) : Except PyExc Round :=
  if ("VmSize" : String).data.isPrefixOf l then
    (parse_vmdata l "VmSize").map (fun v => { round with VmSize := some v })
  else if ("VmRSS" : String).data.isPrefixOf l then
    (parse_vmdata l "VmRSS").map (fun v => { round with VmRSS := some v })
  else if ("RssAnon" : String).data.isPrefixOf l then
    (parse_vmdata l "RssAnon").map (fun v => { round with RssAnon := some v })
  else if ("RssFile" : String).data.isPrefixOf l then
    (parse_vmdata l "RssFile").map (fun v => { round with RssFile := some v })
  else if ("RssShmem" : String).data.isPrefixOf l then
    (parse_vmdata l "RssShmem").map (fun v => { round with RssShmem := some v })
  else if ("Threads" : String).data.isPrefixOf l then
    (parse_threads l "Threads").map (fun v => { round with Threads := some v })
  else
    .ok round

/-- One iteration of the `for line in f` loop of `parse_report`, acting
on the state (current round, emitted rounds). -/
def parseStep (st : Round × List Round) (l : List Char) :
    Except PyExc (Round × List Round) :=
  if ['#', '#'].isPrefixOf l then
    match headerLineMatch l with
    | none => .error .assertionError
    | some (n, i) => .ok ({ st.1 with vm_name := some n, vm_insts := some i }, st.2)
  else if ['-', '-'].isPrefixOf l then
    .ok (emptyRound, st.2 ++ [st.1])
  else
    (metricStep st.1 l).map (fun r => (r, st.2))

/-- The whole `for line in f` loop. -/
def runLines : List (List Char) → Round × List Round → Except PyExc (Round × List Round)
  | [], st => .ok st
  | l :: ls, st =>
    match parseStep st l with
    | .error e => .error e
    | .ok st2 => runLines ls st2

/-- Python file iteration: split text into lines, each keeping its
trailing newline; no empty final line when the text ends in a newline. -/
def splitLinesAux : List Char → List Char → List (List Char)
  | [], cur => if cur = [] then [] else [cur.reverse]
  | c :: rest, cur =>
    if c = '\n' then
      (cur.reverse ++ ['\n']) :: splitLinesAux rest []
    else
      splitLinesAux rest (c :: cur)

def splitLines (l : List Char) : List (List Char) := splitLinesAux l []

/-- `parse_report`, with the report file's accumulated text as argument. -/
def parse_report (content : String) : Except PyExc (List Round) :=
  (runLines (splitLines content.data) (emptyRound, [])).map (fun st => st.2)

/-- `write_report(report_path, key, content)`: the text appended to the
report file (`os.linesep` is a newline on the target platform). -/
def write_report (key content : String) : String :=
  "## " ++ key ++ "\n" ++ "```" ++ "\n" ++ content ++ "```" ++ "\n" ++ "---" ++ "\n"

/-- A report block as handed to `write_report`: the round label and the
status lines of the body (each written with a trailing newline). -/
structure Block where
  key : String
  bodyLines : List String
deriving DecidableEq

/-- The body text handed to `write_report`: each status line followed by
a newline. -/
def contentOf : List String → String
  | [] => ""
  | s :: rest => s ++ "\n" ++ contentOf rest

/-- The report file produced by appending each block in turn with
`write_report`, starting from a fresh (empty) file. -/
def reportFile : List Block → String
  | [] => ""
  | b :: bs => write_report b.key (contentOf b.bodyLines) ++ reportFile bs

/-- Total version of the metric `if/elif` chain: the update a well-formed
metric line applies to the current round (identity where `metricStep`
would assert). -/
def metricUpd (round : Round) (l : List Char) : Round :=
  if ("VmSize" : String).data.isPrefixOf l then
    match vmdataMatch ("VmSize" : String).data l with
    | some v => { round with VmSize := some v }
    | none => round
  else if ("VmRSS" : String).data.isPrefixOf l then
    match vmdataMatch ("VmRSS" : String).data l with
    | some v => { round with VmRSS := some v }
    | none => round
  else if ("RssAnon" : String).data.isPrefixOf l then
    match vmdataMatch ("RssAnon" : String).data l with
    | some v => { round with RssAnon := some v }
    | none => round
  else if ("RssFile" : String).data.isPrefixOf l then
    match vmdataMatch ("RssFile" : String).data l with
    | some v => { round with RssFile := some v }
    | none => round
  else if ("RssShmem" : String).data.isPrefixOf l then
    match vmdataMatch ("RssShmem" : String).data l with
    | some v => { round with RssShmem := some v }
    | none => round
  else if ("Threads" : String).data.isPrefixOf l then
    match threadsMatch ("Threads" : String).data l with
    | some v => { round with Threads := some v }
    | none => round
  else
    round

/-- A line on which the metric chain does not assert. -/
def metricLineOkB (l : List Char) : Bool :=
  if ("VmSize" : String).data.isPrefixOf l then
    (vmdataMatch ("VmSize" : String).data l).isSome
  else if ("VmRSS" : String).data.isPrefixOf l then
    (vmdataMatch ("VmRSS" : String).data l).isSome
  else if ("RssAnon" : String).data.isPrefixOf l then
    (vmdataMatch ("RssAnon" : String).data l).isSome
  else if ("RssFile" : String).data.isPrefixOf l then
    (vmdataMatch ("RssFile" : String).data l).isSome
  else if ("RssShmem" : String).data.isPrefixOf l then
    (vmdataMatch ("RssShmem" : String).data l).isSome
  else if ("Threads" : String).data.isPrefixOf l then
    (threadsMatch ("Threads" : String).data l).isSome
  else
    true

/-- A well-formed status line: no header or separator markers, and the
metric chain does not assert on it. -/
def lineOkB (l : List Char) : Bool :=
  !(['#', '#'].isPrefixOf l) && !(['-', '-'].isPrefixOf l) && metricLineOkB l

/-- A well-formed block: the label matches the header pattern, and the
body is a sequence of well-formed single-line status lines. -/
def wfBlock (b : Block) : Bool :=
  (headerLineMatch (("## " ++ b.key ++ "\n") : String).data).isSome &&
  b.key.data.all (fun c => c ≠ '\n') &&
  b.bodyLines.all (fun s => s.data.all (fun c => c ≠ '\n') && lineOkB (s.data ++ ['\n']))

/-- The round opened by a block's header line. -/
def headerRound (b : Block) : Round :=
  match headerLineMatch (("## " ++ b.key ++ "\n") : String).data with
  | some (n, i) => { emptyRound with vm_name := some n, vm_insts := some i }
  | none => emptyRound

/-- The round record reconstructed from one well-formed block. -/
def blockRound (b : Block) : Round :=
  (b.bodyLines.map (fun s => s.data ++ ['\n'])).foldl metricUpd (headerRound b)

/-- The lines of one written block, as `parse_report` will see them. -/
def blockLinesList (b : Block) : List (List Char) :=
  (("## " ++ b.key ++ "\n") : String).data :: ("```\n" : String).data ::
    (b.bodyLines.map (fun s => s.data ++ ['\n']) ++
      [("```\n" : String).data, ("---\n" : String).data])

theorem splitLinesAux_line (l : List Char) (rest acc : List Char) (hl : '\n' ∉ l) :
    splitLinesAux (l ++ '\n' :: rest) acc =
      ((acc.reverse ++ l) ++ ['\n']) :: splitLinesAux rest [] := by
  induction l generalizing acc with
  | nil => simp [splitLinesAux]
  | cons c cs ih =>
    have hc : ¬ (c = '\n') := fun hh => hl (hh ▸ List.mem_cons_self c cs)
    rw [List.cons_append, splitLinesAux, if_neg hc]
    rw [ih (c :: acc) (fun hh => hl (List.mem_cons_of_mem _ hh))]
    simp

theorem splitLinesAux_joined (ls : List (List Char)) (rest : List Char)
    (h : ∀ l ∈ ls, ∃ l0, l = l0 ++ ['\n'] ∧ '\n' ∉ l0) :
    splitLinesAux (ls.flatten ++ rest) [] = ls ++ splitLinesAux rest [] := by
  induction ls with
  | nil => simp
  | cons l ls2 ih =>
    obtain ⟨l0, rfl, hl0⟩ := h l (List.mem_cons_self _ _)
    rw [List.flatten_cons]
    simp only [List.append_assoc, List.singleton_append, List.cons_append]
    rw [splitLinesAux_line l0 _ [] hl0]
    simp only [List.nil_append, List.reverse_nil]
    rw [ih (fun x hx => h x (List.mem_cons_of_mem _ hx))]

theorem runLines_append (xs ys : List (List Char)) (st : Round × List Round) :
    runLines (xs ++ ys) st =
      match runLines xs st with
      | .error e => .error e
      | .ok st2 => runLines ys st2 := by
  induction xs generalizing st with
  | nil => simp [runLines]
  | cons l ls ih =>
    rw [List.cons_append, runLines, runLines]
    cases parseStep st l with
    | error e => rfl
    | ok st2 => exact ih st2

theorem isPrefixOf_of_append_isPrefixOf (xs ys l : List Char)
    (h : (xs ++ ys).isPrefixOf l = true) : xs.isPrefixOf l = true := by
  rw [List.isPrefixOf_iff_prefix] at h ⊢
  exact (List.prefix_append xs ys).trans h

theorem parseStep_header (l : List Char) (r : Round) (acc : List Round) (n i : String)
    (h : headerLineMatch l = some (n, i)) :
    parseStep (r, acc) l =
      .ok ({ r with vm_name := some n, vm_insts := some i }, acc) := by
  have hpre3 : ['#', '#', ' '].isPrefixOf l = true := by
    by_contra hc
    rw [headerLineMatch, if_neg hc] at h
    cases h
  have hpre2 : ['#', '#'].isPrefixOf l = true :=
    isPrefixOf_of_append_isPrefixOf ['#', '#'] [' '] l hpre3
  rw [parseStep, if_pos hpre2, h]

theorem parseStep_tick (r : Round) (acc : List Round) :
    parseStep (r, acc) ("```\n" : String).data = .ok (r, acc) := by
  rfl

theorem parseStep_sep (r : Round) (acc : List Round) :
    parseStep (r, acc) ("---\n" : String).data = .ok (emptyRound, acc ++ [r]) := by
  rfl

theorem metricStep_eq_upd (r : Round) (l : List Char) (h : metricLineOkB l = true) :
    metricStep r l = .ok (metricUpd r l) := by
  rw [metricStep, metricUpd, metricLineOkB] at *
  split_ifs at *
  all_goals try rfl
  all_goals
    obtain ⟨v, hv⟩ := Option.isSome_iff_exists.mp h
    simp [parse_vmdata, parse_threads, hv, Except.map]

theorem parseStep_body (r : Round) (acc : List Round) (l : List Char)
    (h : lineOkB l = true) :
    parseStep (r, acc) l = .ok (metricUpd r l, acc) := by
  rw [lineOkB] at h
  simp only [Bool.and_eq_true, Bool.not_eq_true'] at h
  obtain ⟨⟨h1, h2⟩, h3⟩ := h
  rw [parseStep, if_neg (by simp [h1]), if_neg (by simp [h2])]
  rw [metricStep_eq_upd r l h3]
  rfl

theorem runLines_body (ls : List (List Char)) (r : Round) (acc : List Round)
    (h : ∀ l ∈ ls, lineOkB l = true) :
    runLines ls (r, acc) = .ok (ls.foldl metricUpd r, acc) := by
  induction ls generalizing r with
  | nil => simp [runLines]
  | cons l ls2 ih =>
    rw [runLines, parseStep_body r acc l (h l (List.mem_cons_self _ _))]
    exact ih _ (fun x hx => h x (List.mem_cons_of_mem _ hx))

theorem runLines_cons_ok (l : List Char) (ls : List (List Char))
    (st st2 : Round × List Round) (h : parseStep st l = .ok st2) :
    runLines (l :: ls) st = runLines ls st2 := by
  rw [runLines, h]

theorem runLines_append_ok (xs ys : List (List Char)) (st st2 : Round × List Round)
    (h : runLines xs st = .ok st2) :
    runLines (xs ++ ys) st = runLines ys st2 := by
  rw [runLines_append, h]

theorem contentOf_data (ls : List String) :
    (contentOf ls).data = (ls.map (fun s => s.data ++ ['\n'])).flatten := by
  induction ls with
  | nil => rfl
  | cons s rest ih =>
    rw [contentOf]
    simp [String.data_append, ih]

theorem write_report_data (b : Block) :
    (write_report b.key (contentOf b.bodyLines)).data = (blockLinesList b).flatten := by
  have h1 : ("```\n" : String).data = ("```" : String).data ++ ("\n" : String).data := rfl
  have h2 : ("---\n" : String).data = ("---" : String).data ++ ("\n" : String).data := rfl
  rw [write_report, blockLinesList]
  simp [String.data_append, contentOf_data, List.append_assoc, h1, h2]

theorem blockLinesList_nl (b : Block) (hwf : wfBlock b = true) :
    ∀ l ∈ blockLinesList b, ∃ l0, l = l0 ++ ['\n'] ∧ '\n' ∉ l0 := by
  rw [wfBlock] at hwf
  simp only [Bool.and_eq_true, List.all_eq_true] at hwf
  obtain ⟨⟨-, hk⟩, hb⟩ := hwf
  intro l hl
  rw [blockLinesList] at hl
  simp only [List.mem_cons, List.mem_append, List.mem_map] at hl
  rcases hl with hl | hl | ⟨s, hs, rfl⟩ | hl | hl | hfalse
  · subst hl
    refine ⟨("## " ++ b.key : String).data, by simp [String.data_append], ?_⟩
    have hkk : ∀ c ∈ b.key.data, ¬ (c = '\n') := by
      intro c hc
      simpa using hk c hc
    simp [String.data_append]
    intro hmem
    exact hkk '\n' hmem rfl
  · subst hl
    exact ⟨("```" : String).data, rfl, by decide⟩
  · refine ⟨s.data, rfl, ?_⟩
    obtain ⟨hns, -⟩ := hb s hs
    intro hmem
    simpa using hns '\n' hmem
  · subst hl
    exact ⟨("```" : String).data, rfl, by decide⟩
  · subst hl
    exact ⟨("---" : String).data, rfl, by decide⟩
  · cases hfalse

theorem runLines_block (b : Block) (acc : List Round) (hwf : wfBlock b = true) :
    runLines (blockLinesList b) (emptyRound, acc)
      = .ok (emptyRound, acc ++ [blockRound b]) := by
  have hwf2 := hwf
  rw [wfBlock] at hwf2
  simp only [Bool.and_eq_true, List.all_eq_true] at hwf2
  obtain ⟨⟨hh, -⟩, hb⟩ := hwf2
  obtain ⟨⟨n, i⟩, hp⟩ := Option.isSome_iff_exists.mp hh
  have hbody : ∀ l ∈ b.bodyLines.map (fun s => s.data ++ ['\n']), lineOkB l = true := by
    intro l hl
    obtain ⟨s, hs, rfl⟩ := List.mem_map.mp hl
    exact (hb s hs).2
  rw [blockLinesList]
  rw [runLines_cons_ok _ _ _ _ (parseStep_header _ _ _ n i hp)]
  rw [runLines_cons_ok _ _ _ _ (parseStep_tick _ _)]
  rw [runLines_append_ok _ _ _ _ (runLines_body _ _ _ hbody)]
  rw [runLines_cons_ok _ _ _ _ (parseStep_tick _ _)]
  rw [runLines_cons_ok _ _ _ _ (parseStep_sep _ _)]
  rw [runLines, blockRound, headerRound, hp]

theorem runLines_blocks (bs : List Block) (tl : List (List Char)) (acc : List Round)
    (h : ∀ b ∈ bs, wfBlock b = true) :
    runLines ((bs.map blockLinesList).flatten ++ tl) (emptyRound, acc)
      = runLines tl (emptyRound, acc ++ bs.map blockRound) := by
  induction bs generalizing acc with
  | nil => simp
  | cons b bs2 ih =>
    rw [List.map_cons, List.flatten_cons, List.append_assoc]
    rw [runLines_append_ok _ _ _ _ (runLines_block b acc (h b (List.mem_cons_self _ _)))]
    rw [ih _ (fun x hx => h x (List.mem_cons_of_mem _ hx))]
    simp [List.append_assoc]

theorem splitLines_reportFile (bs : List Block) (rest : List Char)
    (h : ∀ b ∈ bs, wfBlock b = true) :
    splitLines ((reportFile bs).data ++ rest)
      = (bs.map blockLinesList).flatten ++ splitLines rest := by
  induction bs with
  | nil =>
    have he : (reportFile [] : String).data = [] := rfl
    rw [he]
    simp
  | cons b bs2 ih =>
    rw [reportFile, String.data_append, write_report_data b, List.append_assoc]
    rw [splitLines, splitLinesAux_joined _ _ (blockLinesList_nl b (h b (List.mem_cons_self _ _)))]
    have ih2 := ih (fun x hx => h x (List.mem_cons_of_mem _ hx))
    rw [splitLines] at ih2
    rw [ih2]
    simp [List.append_assoc, splitLines]

theorem parse_report_file_tail (bs : List Block) (restS : String)
    (h : ∀ b ∈ bs, wfBlock b = true) :
    parse_report (reportFile bs ++ restS) =
      (runLines (splitLines restS.data) (emptyRound, bs.map blockRound)).map
        (fun st => st.2) := by
  rw [parse_report, String.data_append, splitLines_reportFile bs restS.data h]
  rw [runLines_blocks bs (splitLines restS.data) [] h]
  rw [List.nil_append]

/-- C4: appending N well-formed blocks with `write_report` to a fresh
file and parsing the result with `parse_report` yields exactly N round
records, one per block, in the order the blocks were written. -/
theorem parse_report_roundtrip (bs : List Block)
    (h : ∀ b ∈ bs, wfBlock b = true) :
    parse_report (reportFile bs) = .ok (bs.map blockRound) ∧
    (bs.map blockRound).length = bs.length := by
  constructor
  · have e : reportFile bs = reportFile bs ++ "" := (String.append_empty _).symm
    rw [e, parse_report_file_tail bs "" h]
    have e2 : splitLines ("" : String).data = [] := rfl
    rw [e2, runLines]
    rfl
  · simp

theorem parse_report_roundtrip_witness :
    (∀ b ∈ [(⟨"v8_1_vm", ["VmSize:  100 kB", "Threads: 5"]⟩ : Block),
            (⟨"v8_2_vm", ["VmSize:  200 kB"]⟩ : Block)], wfBlock b = true) ∧
    (parse_report (reportFile
        [(⟨"v8_1_vm", ["VmSize:  100 kB", "Threads: 5"]⟩ : Block),
         (⟨"v8_2_vm", ["VmSize:  200 kB"]⟩ : Block)])
      = .ok ([(⟨"v8_1_vm", ["VmSize:  100 kB", "Threads: 5"]⟩ : Block),
              (⟨"v8_2_vm", ["VmSize:  200 kB"]⟩ : Block)].map blockRound) ∧
     ([(⟨"v8_1_vm", ["VmSize:  100 kB", "Threads: 5"]⟩ : Block),
       (⟨"v8_2_vm", ["VmSize:  200 kB"]⟩ : Block)].map blockRound).length =
       [(⟨"v8_1_vm", ["VmSize:  100 kB", "Threads: 5"]⟩ : Block),
        (⟨"v8_2_vm", ["VmSize:  200 kB"]⟩ : Block)].length) :=
  ⟨by decide, parse_report_roundtrip _ (by decide)⟩

/-- C8: a well-formed block whose body consists of exactly the lines
`VmSize:  200000 kB` and `Threads: 12` parses to a round holding exactly
the two metrics VmSize and Threads (besides the label and instance-count
fields); all other metrics are absent, not zero. -/
theorem parse_report_two_metrics (key n i : String)
    (hh : headerLineMatch (("## " ++ key ++ "\n") : String).data = some (n, i))
    (hk : key.data.all (fun c => c ≠ '\n') = true) :
    parse_report (write_report key "VmSize:  200000 kB\nThreads: 12\n")
      = .ok [{ vm_name := some n, vm_insts := some i, VmSize := some 200000,
               VmRSS := none, RssAnon := none, RssFile := none, RssShmem := none,
               Threads := some 12 }] := by
  have hwf : wfBlock ⟨key, ["VmSize:  200000 kB", "Threads: 12"]⟩ = true := by
    rw [wfBlock]
    simp only [hh, Option.isSome_some, Bool.true_and]
    rw [hk]
    rw [Bool.true_and]
    decide
  have h1 := (parse_report_roundtrip [⟨key, ["VmSize:  200000 kB", "Threads: 12"]⟩]
    (by intro b hb; simp at hb; subst hb; exact hwf)).1
  have e : reportFile [(⟨key, ["VmSize:  200000 kB", "Threads: 12"]⟩ : Block)]
      = write_report key "VmSize:  200000 kB\nThreads: 12\n" := by
    rw [reportFile, reportFile, String.append_empty]
    rfl
  rw [e] at h1
  rw [h1, List.map_cons, List.map_nil, blockRound, headerRound]
  rw [hh]
  rfl

theorem parse_report_two_metrics_witness :
    headerLineMatch (("## " ++ "x_1_vm" ++ "\n") : String).data = some ("x", "1") ∧
    ("x_1_vm" : String).data.all (fun c => c ≠ '\n') = true ∧
    parse_report (write_report "x_1_vm" "VmSize:  200000 kB\nThreads: 12\n")
      = .ok [{ vm_name := some "x", vm_insts := some "1", VmSize := some 200000,
               VmRSS := none, RssAnon := none, RssFile := none, RssShmem := none,
               Threads := some 12 }] :=
  ⟨by decide, by decide, parse_report_two_metrics "x_1_vm" "x" "1" (by decide) (by decide)⟩

theorem take_all_digits (l : List Char) (j : Nat) (hj : j ≤ digitRun l) :
    (l.take j).all Char.isDigit = true := by
  induction l generalizing j with
  | nil => simp
  | cons c t ih =>
    match j with
    | 0 => rfl
    | j2 + 1 =>
      by_cases hc : Char.isDigit c
      · have hj2 : j2 ≤ digitRun t := by
          rw [digitRun, List.takeWhile_cons, if_pos hc] at hj
          simpa [digitRun] using hj
        simp only [List.take_succ_cons, List.all_cons, hc, Bool.true_and]
        exact ih j2 hj2
      · rw [digitRun, List.takeWhile_cons, if_neg hc] at hj
        simp at hj

theorem tryDigits_digits (k : Nat) (l ds : List Char) (hk : k ≤ digitRun l)
    (h : tryDigits k l = some ds) :
    ds ≠ [] ∧ ds.all Char.isDigit = true := by
  induction k with
  | zero => rw [tryDigits] at h; cases h
  | succ k2 ih =>
    rw [tryDigits] at h
    split_ifs at h with hp
    · simp only [Option.some.injEq] at h
      subst h
      refine ⟨?_, take_all_digits l (k2 + 1) hk⟩
      cases l with
      | nil =>
        rw [digitRun] at hk
        simp at hk
      | cons c t => simp
    · exact ih (Nat.le_of_succ_le hk) h

theorem matchNumVm_digits (l ds : List Char) (h : matchNumVm l = some ds) :
    ds ≠ [] ∧ ds.all Char.isDigit = true := by
  match l with
  | [] => rw [matchNumVm] at h; cases h
  | c :: rest =>
    rw [matchNumVm] at h
    split_ifs at h with hc
    exact tryDigits_digits _ rest ds (le_refl _) h

theorem tryName_digits (k : Nat) (l : List Char) (n i : String)
    (h : tryName k l = some (n, i)) :
    i.data ≠ [] ∧ i.data.all Char.isDigit = true := by
  induction k with
  | zero => rw [tryName] at h; cases h
  | succ k2 ih =>
    rw [tryName] at h
    cases hm : matchNumVm (l.drop (k2 + 1)) with
    | some ds =>
      rw [hm] at h
      simp only [Option.some.injEq, Prod.mk.injEq] at h
      obtain ⟨-, hi⟩ := h
      subst hi
      exact matchNumVm_digits _ ds hm
    | none =>
      rw [hm] at h
      exact ih h

theorem headerLineMatch_digits (l : List Char) (n i : String)
    (h : headerLineMatch l = some (n, i)) :
    i.data ≠ [] ∧ i.data.all Char.isDigit = true := by
  rw [headerLineMatch] at h
  split_ifs at h with hp
  exact tryName_digits _ _ n i h

theorem vmdataMatch_isPrefixOf (key l : List Char) (v : Nat)
    (h : vmdataMatch key l = some v) : key.isPrefixOf l = true := by
  by_cases hp : (key ++ [':']).isPrefixOf l = true
  · exact isPrefixOf_of_append_isPrefixOf key [':'] l hp
  · rw [vmdataMatch, if_neg hp] at h
    cases h

theorem isPrefixOf_false_of_shorter (A B l : List Char)
    (hB : B.isPrefixOf l = true) (hlen : A.length ≤ B.length)
    (hAB : ¬ (A.isPrefixOf B = true)) : ¬ (A.isPrefixOf l = true) := by
  intro hA
  rw [List.isPrefixOf_iff_prefix] at hA hB hAB
  exact hAB (List.prefix_of_prefix_length_le hA hB hlen)

theorem vmdataMatch_key_colon_isPrefixOf (key l : List Char) (v : Nat)
    (h : vmdataMatch key l = some v) : (key ++ [':']).isPrefixOf l = true := by
  by_contra hp
  rw [vmdataMatch, if_neg hp] at h
  cases h

theorem threadsMatch_key_colon_isPrefixOf (key l : List Char) (v : Nat)
    (h : threadsMatch key l = some v) : (key ++ [':']).isPrefixOf l = true := by
  by_contra hp
  rw [threadsMatch, if_neg hp] at h
  cases h

/-- C9 (amended): a header line matching `## <name>_<digits>_vm` opens a
new round and stores the configuration label and the matched digit
string; the instance count is kept as that raw digit string (it is not
converted to an integer).  Every metric line stores its captured value
as an integer: each of the five `parse_vmdata` keys and the
`parse_threads` key places the parsed integer in its field of the
current round. -/
theorem parse_report_header_extraction (l : List Char) (r : Round) (acc : List Round)
    (n i : String) (h : headerLineMatch l = some (n, i)) :
    parseStep (r, acc) l = .ok ({ r with vm_name := some n, vm_insts := some i }, acc)
    ∧ (i.data ≠ [] ∧ i.data.all Char.isDigit = true)
    ∧ (∀ l2 : List Char, ∀ r2 : Round, ∀ v : Nat,
        vmdataMatch ("VmSize" : String).data l2 = some v →
        metricStep r2 l2 = .ok { r2 with VmSize := some v })
    ∧ (∀ l2 : List Char, ∀ r2 : Round, ∀ v : Nat,
        vmdataMatch ("VmRSS" : String).data l2 = some v →
        metricStep r2 l2 = .ok { r2 with VmRSS := some v })
    ∧ (∀ l2 : List Char, ∀ r2 : Round, ∀ v : Nat,
        vmdataMatch ("RssAnon" : String).data l2 = some v →
        metricStep r2 l2 = .ok { r2 with RssAnon := some v })
    ∧ (∀ l2 : List Char, ∀ r2 : Round, ∀ v : Nat,
        vmdataMatch ("RssFile" : String).data l2 = some v →
        metricStep r2 l2 = .ok { r2 with RssFile := some v })
    ∧ (∀ l2 : List Char, ∀ r2 : Round, ∀ v : Nat,
        vmdataMatch ("RssShmem" : String).data l2 = some v →
        metricStep r2 l2 = .ok { r2 with RssShmem := some v })
    ∧ (∀ l2 : List Char, ∀ r2 : Round, ∀ v : Nat,
        threadsMatch ("Threads" : String).data l2 = some v →
        metricStep r2 l2 = .ok { r2 with Threads := some v }) := by
  refine ⟨parseStep_header l r acc n i h, headerLineMatch_digits l n i h,
    ?_, ?_, ?_, ?_, ?_, ?_⟩
  · intro l2 r2 v hv
    have hpre := vmdataMatch_isPrefixOf _ l2 v hv
    rw [metricStep, if_pos hpre, parse_vmdata, hv]
    rfl
  · intro l2 r2 v hv
    have hc := vmdataMatch_key_colon_isPrefixOf _ l2 v hv
    have hpre := isPrefixOf_of_append_isPrefixOf _ [':'] l2 hc
    rw [metricStep,
      if_neg (isPrefixOf_false_of_shorter ("VmSize" : String).data _ l2 hc
        (by decide) (by decide)),
      if_pos hpre, parse_vmdata, hv]
    rfl
  · intro l2 r2 v hv
    have hc := vmdataMatch_key_colon_isPrefixOf _ l2 v hv
    have hpre := isPrefixOf_of_append_isPrefixOf _ [':'] l2 hc
    rw [metricStep,
      if_neg (isPrefixOf_false_of_shorter ("VmSize" : String).data _ l2 hc
        (by decide) (by decide)),
      if_neg (isPrefixOf_false_of_shorter ("VmRSS" : String).data _ l2 hc
        (by decide) (by decide)),
      if_pos hpre, parse_vmdata, hv]
    rfl
  · intro l2 r2 v hv
    have hc := vmdataMatch_key_colon_isPrefixOf _ l2 v hv
    have hpre := isPrefixOf_of_append_isPrefixOf _ [':'] l2 hc
    rw [metricStep,
      if_neg (isPrefixOf_false_of_shorter ("VmSize" : String).data _ l2 hc
        (by decide) (by decide)),
      if_neg (isPrefixOf_false_of_shorter ("VmRSS" : String).data _ l2 hc
        (by decide) (by decide)),
      if_neg (isPrefixOf_false_of_shorter ("RssAnon" : String).data _ l2 hc
        (by decide) (by decide)),
      if_pos hpre, parse_vmdata, hv]
    rfl
  · intro l2 r2 v hv
    have hc := vmdataMatch_key_colon_isPrefixOf _ l2 v hv
    have hpre := isPrefixOf_of_append_isPrefixOf _ [':'] l2 hc
    rw [metricStep,
      if_neg (isPrefixOf_false_of_shorter ("VmSize" : String).data _ l2 hc
        (by decide) (by decide)),
      if_neg (isPrefixOf_false_of_shorter ("VmRSS" : String).data _ l2 hc
        (by decide) (by decide)),
      if_neg (isPrefixOf_false_of_shorter ("RssAnon" : String).data _ l2 hc
        (by decide) (by decide)),
      if_neg (isPrefixOf_false_of_shorter ("RssFile" : String).data _ l2 hc
        (by decide) (by decide)),
      if_pos hpre, parse_vmdata, hv]
    rfl
  · intro l2 r2 v hv
    have hc := threadsMatch_key_colon_isPrefixOf _ l2 v hv
    have hpre := isPrefixOf_of_append_isPrefixOf _ [':'] l2 hc
    rw [metricStep,
      if_neg (isPrefixOf_false_of_shorter ("VmSize" : String).data _ l2 hc
        (by decide) (by decide)),
      if_neg (isPrefixOf_false_of_shorter ("VmRSS" : String).data _ l2 hc
        (by decide) (by decide)),
      if_neg (isPrefixOf_false_of_shorter ("RssAnon" : String).data _ l2 hc
        (by decide) (by decide)),
      if_neg (isPrefixOf_false_of_shorter ("RssFile" : String).data _ l2 hc
        (by decide) (by decide)),
      if_neg (isPrefixOf_false_of_shorter ("RssShmem" : String).data _ l2 hc
        (by decide) (by decide)),
      if_pos hpre, parse_threads, hv]
    rfl

/-- C9 (counterexample): for the header label `x_01_vm` the parser stores
the raw digit string "01" in the instance-count field; an integer
extraction would have produced 1 (decimal "1"), so the instance count is
not extracted as an integer. -/
theorem parse_report_insts_raw_string :
    parse_report (write_report "x_01_vm" "") =
      .ok [{ emptyRound with vm_name := some "x", vm_insts := some "01" }] ∧
    ("01" : String) ≠ toString (natOfDigits ("01" : String).data) := by
  exact ⟨by rfl, by decide⟩

theorem parse_report_header_extraction_witness :
    headerLineMatch ("## v8_1_vm\n" : String).data = some ("v8", "1") ∧
    parseStep (emptyRound, []) ("## v8_1_vm\n" : String).data
      = .ok ({ emptyRound with vm_name := some "v8", vm_insts := some "1" }, []) ∧
    (("1" : String).data ≠ [] ∧ ("1" : String).data.all Char.isDigit = true) := by
  refine ⟨by rfl, ?_, ?_⟩
  · exact (parse_report_header_extraction ("## v8_1_vm\n" : String).data emptyRound []
      "v8" "1" (by rfl)).1
  · exact (parse_report_header_extraction ("## v8_1_vm\n" : String).data emptyRound []
      "v8" "1" (by rfl)).2.1

/-- C10: `parse_report` emits a round only on a `--` separator line: a
file that ends with a header and well-formed metric lines not followed
by a separator yields exactly the earlier complete blocks; the final
in-progress round is silently omitted, with no error reported. -/
theorem parse_report_omits_unterminated (bs : List Block) (p : Block)
    (h : ∀ b ∈ bs, wfBlock b = true) (hp : wfBlock p = true) :
    parse_report (reportFile bs ++ ("## " ++ p.key ++ "\n" ++ contentOf p.bodyLines))
      = .ok (bs.map blockRound) := by
  rw [parse_report_file_tail bs _ h]
  have hwf2 := hp
  rw [wfBlock] at hwf2
  simp only [Bool.and_eq_true, List.all_eq_true] at hwf2
  obtain ⟨⟨hh, hk⟩, hb⟩ := hwf2
  obtain ⟨⟨n, i⟩, hhp⟩ := Option.isSome_iff_exists.mp hh
  have hnl : ∀ l ∈ (("## " ++ p.key ++ "\n") : String).data ::
      p.bodyLines.map (fun s => s.data ++ ['\n']),
      ∃ l0, l = l0 ++ ['\n'] ∧ '\n' ∉ l0 := by
    intro l hl
    apply blockLinesList_nl p hp
    rw [blockLinesList]
    rcases List.mem_cons.mp hl with hl1 | hl2
    · exact hl1 ▸ List.mem_cons_self _ _
    · exact List.mem_cons_of_mem _ (List.mem_cons_of_mem _ (List.mem_append_left _ hl2))
  have hdata : (("## " ++ p.key ++ "\n" ++ contentOf p.bodyLines) : String).data
      = ((("## " ++ p.key ++ "\n") : String).data ::
          p.bodyLines.map (fun s => s.data ++ ['\n'])).flatten ++ [] := by
    simp [String.data_append, contentOf_data, List.flatten_cons]
  rw [splitLines, hdata, splitLinesAux_joined _ _ hnl]
  have he : splitLinesAux ([] : List Char) [] = [] := rfl
  rw [he, List.append_nil]
  have hbody : ∀ l ∈ p.bodyLines.map (fun s => s.data ++ ['\n']), lineOkB l = true := by
    intro l hl
    obtain ⟨s, hs, rfl⟩ := List.mem_map.mp hl
    exact (hb s hs).2
  rw [runLines_cons_ok _ _ _ _ (parseStep_header _ _ _ n i hhp)]
  rw [runLines_body _ _ _ hbody]
  rfl

theorem parse_report_omits_unterminated_witness :
    (∀ b ∈ [(⟨"v8_1_vm", ["VmSize:  100 kB"]⟩ : Block)], wfBlock b = true) ∧
    wfBlock (⟨"v8_2_vm", ["VmSize:  200 kB"]⟩ : Block) = true ∧
    parse_report (reportFile [(⟨"v8_1_vm", ["VmSize:  100 kB"]⟩ : Block)] ++
        ("## " ++ "v8_2_vm" ++ "\n" ++ contentOf ["VmSize:  200 kB"]))
      = .ok ([(⟨"v8_1_vm", ["VmSize:  100 kB"]⟩ : Block)].map blockRound) :=
  ⟨by decide, by decide,
    parse_report_omits_unterminated [⟨"v8_1_vm", ["VmSize:  100 kB"]⟩]
      ⟨"v8_2_vm", ["VmSize:  200 kB"]⟩ (by decide) (by decide)⟩

/-! ## Run orchestrator: `start_envoy_and_collect_vm_info`
(run.py lines 80-103)

The orchestrator initialises `envoy_proc = None`, runs a `try` body
(launch, 1s sleep, locate, read status, append report), catches only
`AssertionError`, and has a `finally` block that unconditionally calls
`envoy_proc.kill()` and sleeps 1s.  We model the environment (did the
readiness marker arrive within 5s, what did `ps aux` print, is the
status pseudo-file readable) and the outcome: a normal return or an
uncaught exception, together with whether a spawned child was killed. -/

/-- Whether the readiness marker appeared within the 5-second window. -/
inductive LaunchResult
  | ready
  | timeout
deriving DecidableEq, Repr

/-- `start_envoy`: returns a handle, or raises `AssertionError` from
`assert("Reach a timeout" == None)`; on timeout the spawned child's
handle is lost. -/
def start_envoy (lr : LaunchResult) : Except PyExc Unit :=
  match lr with
  | .ready => .ok ()
  | .timeout => .error .assertionError

/-- The environment one round runs in. -/
structure RoundEnv where
  launch : LaunchResult
  psOutput : String
  statusReadable : Bool
deriving DecidableEq, Repr

/-- Outcome of one orchestrated round: a normal return, or an exception
that escapes `start_envoy_and_collect_vm_info`; `childKilled` records
whether `kill()` was invoked on a live handle. -/
inductive RoundOutcome
  | normal (childKilled : Bool)
  | uncaught (e : PyExc) (childKilled : Bool)
deriving DecidableEq, Repr

/-- The `try` body: launch, locate (`assert pid != 0`), read status,
write report.  Returns the final value of `envoy_proc` together with
the body's result. -/
def collectTryBody (envoy_path : String) (env : RoundEnv) :
    Option Unit × Except PyExc Unit :=
  match start_envoy env.launch with
  | .error e => (none, .error e)
  | .ok h =>
    match grep_envoy_pid envoy_path env.psOutput with
    | .error e => (some h, .error e)
    | .ok .notFound => (some h, .error .assertionError)
    | .ok (.found _) =>
      if env.statusReadable then
        (some h, .ok ())
      else
        (some h, .error .fileNotFoundError)

/-- `start_envoy_and_collect_vm_info`: `except AssertionError` swallows
only assertion failures; the `finally` block calls `envoy_proc.kill()`
unconditionally, which raises `AttributeError` when `envoy_proc` is
still `None`. -/
def start_envoy_and_collect_vm_info (envoy_path : String) (env : RoundEnv) :
    RoundOutcome :=
  let (envoy_proc, res) := collectTryBody envoy_path env
  let handled : Except PyExc Unit :=
    match res with
    | .error .assertionError => .ok ()
    | r => r
  match envoy_proc with
  | none => .uncaught .attributeError false
  | some _ =>
    match handled with
    | .ok _ => .normal true
    | .error e => .uncaught e true

/-- C1: against the claim, not every round failure is contained.  When
the launcher times out before returning a handle, `envoy_proc` is still
`None` and the `finally` block's `envoy_proc.kill()` raises an uncaught
`AttributeError`: the child is not killed and the exception aborts the
batch.  A status-read failure is likewise uncaught, because only
`AssertionError` is handled (the child is killed in that case).  Only
the locator not-found failure is caught and returns normally. -/
theorem orchestrator_failures_escape :
    start_envoy_and_collect_vm_info "exe_2_v8/envoy-static"
        ⟨.timeout, "", true⟩ = .uncaught .attributeError false ∧
    start_envoy_and_collect_vm_info "exe_2_v8/envoy-static"
        ⟨.ready, "r 12 0 0 0 0 tty S 0 0 exe_2_v8/envoy-static", false⟩
      = .uncaught .fileNotFoundError true ∧
    start_envoy_and_collect_vm_info "exe_2_v8/envoy-static"
        ⟨.ready, "", true⟩ = .normal true := by
  refine ⟨rfl, ?_, rfl⟩
  rfl
